import Mathlib

/-!
Verification of the value-inference cascade of the `environment` crate.

The development shallowly embeds the Rust sources (`src/lib.rs`,
`src/int.rs`, `src/floats.rs`, `src/bool.rs`, `src/socketaddr.rs`).
Strings are modelled as `List Char`.  The anchored regular expressions of
the detectors are modelled as executable whole-string matchers, and the
standard-library decoding collaborators (radix integer decoding, IEEE-754
double decoding, IPv4/IPv6/socket-address decoding) are modelled from their
documented textual grammars.  The recursive constructor `Value::new` is
embedded with an explicit fuel parameter; a theorem below shows fuel 2 is
always enough, which is exactly the observation that the splitter removes
every delimiter, so the recursion depth is at most two.
-/

/-- Strings are modelled as lists of characters. -/
abbrev Str := List Char

/-- Alias for `Bool`, usable inside the `Value` namespace where the name
`Bool` denotes the constructor `Value.Bool`. -/
abbrev BoolT := Bool

/-- Alias for `Int`, usable inside the `Value` namespace where the name
`Int` denotes the constructor `Value.Int`. -/
abbrev IntT := Int

/-- Splitting on a separator character, mirroring Rust `str::split(sep)`:
the empty string yields one empty piece, `":"` yields two empty pieces. -/
def splitOnChar (sep : Char) : Str → List Str
  | [] => [[]]
  | c :: rest =>
    match splitOnChar sep rest with
    | [] => if c = sep then [[], []] else [[c]]
    | p :: ps => if c = sep then [] :: p :: ps else (c :: p) :: ps

/-- Split a string at the first occurrence of `sep`, mirroring the way the
standard socket-address parser consumes an IPv4 address followed by `:` and
a port (the address part can contain no `:`).  Returns `none` when `sep`
does not occur. -/
def splitFirst (sep : Char) : Str → Option (Str × Str)
  | [] => none
  | c :: rest =>
    if c = sep then some ([], rest)
    else (splitFirst sep rest).map fun pr => (c :: pr.1, pr.2)

/-- Locate the first occurrence of the IPv6 group compression `::`,
returning the text before and after it. -/
def findDoubleColon : Str → Option (Str × Str)
  | [] => none
  | ':' :: ':' :: rest => some ([], rest)
  | c :: rest => (findDoubleColon rest).map fun pr => (c :: pr.1, pr.2)

/-- Whitespace trimming from both ends, mirroring Rust `str::trim`
(restricted to the ASCII whitespace characters, which is all the claims
exercise). -/
def trimChars (s : Str) : Str :=
  ((s.dropWhile Char.isWhitespace).reverse.dropWhile Char.isWhitespace).reverse

/-- Value of a single character as a digit in the given base, mirroring
`char::to_digit` as used by `i64::from_str_radix`. -/
def digitVal (base : Nat) (c : Char) : Option Nat :=
  let d :=
    if c.isDigit then some (c.toNat - '0'.toNat)
    else if 'a' ≤ c ∧ c ≤ 'z' then some (c.toNat - 'a'.toNat + 10)
    else if 'A' ≤ c ∧ c ≤ 'Z' then some (c.toNat - 'A'.toNat + 10)
    else none
  match d with
  | some v => if v < base then some v else none
  | none => none

/-- Numeric value of a run of decimal digits. -/
def natOfDigits (p : Str) : Nat :=
  p.foldl (fun acc c => acc * 10 + (c.toNat - '0'.toNat)) 0

/-- Modelled from the spec: the standard radix integer decoding collaborator
(`i64::from_str_radix`).  An optional single `+`/`-` sign followed by at
least one digit of the base; the checked accumulation of the Rust decoder
fails exactly when the mathematical value leaves the signed 64-bit range,
so the overflow test is expressed as a range check on the decoded value. -/
def fromStrRadix (s : Str) (base : Nat) : Option Int :=
  match s with
  | [] => none
  | c :: rest =>
    let signDigits : Bool × Str :=
      if c = '-' then (true, rest)
      else if c = '+' then (false, rest)
      else (false, s)
    let digits := signDigits.2
    if digits = [] then none
    else if digits.all fun d => (digitVal base d).isSome then
      let n : Nat := digits.foldl (fun acc d => acc * base + (digitVal base d).getD 0) 0
      let v : Int := if signDigits.1 then -(n : Int) else (n : Int)
      if -(2 ^ 63 : Int) ≤ v ∧ v ≤ 2 ^ 63 - 1 then some v else none
    else none

/-- Whole-string match of the decimal integer regex `^([-|+]?[0-9]{1,19})$`
of `src/int.rs` (note the character class `[-|+]` of the source literally
contains `|`). -/
def isDecLex (s : Str) : Bool :=
  match s with
  | [] => false
  | c :: rest =>
    if c = '-' ∨ c = '|' ∨ c = '+' then
      rest.all Char.isDigit && decide (1 ≤ rest.length) && decide (rest.length ≤ 19)
    else
      s.all Char.isDigit && decide (1 ≤ s.length) && decide (s.length ≤ 19)

/-- Whether a character belongs to the class `[A-Fa-f0-9]`. -/
def isHexDigitCh (c : Char) : Bool :=
  c.isDigit || (decide ('a' ≤ c) && decide (c ≤ 'f')) || (decide ('A' ≤ c) && decide (c ≤ 'F'))

/-- Whether a character belongs to the class `[0-7]`. -/
def isOctDigitCh (c : Char) : Bool :=
  decide ('0' ≤ c) && decide (c ≤ '7')

/-- Whether a character belongs to the class `[01]`. -/
def isBinDigitCh (c : Char) : Bool :=
  c = '0' || c = '1'

/-- Whole-string match of the hexadecimal regex `^0x([A-Fa-f0-9]{1,16})$`. -/
def isHexLex (s : Str) : Bool :=
  match s with
  | c1 :: c2 :: ds =>
    decide (c1 = '0') && decide (c2 = 'x') &&
      ds.all isHexDigitCh && decide (1 ≤ ds.length) && decide (ds.length ≤ 16)
  | _ => false

/-- Whole-string match of the octal regex `^0o([0-7]{1,32})$`. -/
def isOctLex (s : Str) : Bool :=
  match s with
  | c1 :: c2 :: ds =>
    decide (c1 = '0') && decide (c2 = 'o') &&
      ds.all isOctDigitCh && decide (1 ≤ ds.length) && decide (ds.length ≤ 32)
  | _ => false

/-- Whole-string match of the binary regex `^0b([01]{1,64})$`. -/
def isBinLex (s : Str) : Bool :=
  match s with
  | c1 :: c2 :: ds =>
    decide (c1 = '0') && decide (c2 = 'b') &&
      ds.all isBinDigitCh && decide (1 ≤ ds.length) && decide (ds.length ≤ 64)
  | _ => false

/-- `parse_base_10` of `src/int.rs`: the capture group of the decimal regex
is the whole string (sign included), which is decoded in base 10. -/
def parse_base_10 (s : Str) : Option Int :=
  if isDecLex s then fromStrRadix s 10 else none

/-- `parse_base_16` of `src/int.rs`: the capture group is the digit run
after the `0x` prefix, decoded in base 16. -/
def parse_base_16 (s : Str) : Option Int :=
  if isHexLex s then fromStrRadix (s.drop 2) 16 else none

/-- `parse_base_8` of `src/int.rs`. -/
def parse_base_8 (s : Str) : Option Int :=
  if isOctLex s then fromStrRadix (s.drop 2) 8 else none

/-- `parse_base_2` of `src/int.rs`. -/
def parse_base_2 (s : Str) : Option Int :=
  if isBinLex s then fromStrRadix (s.drop 2) 2 else none

/-- `parse_int` of `src/int.rs`: the iterator chain takes the first base
whose lexical match and decode both succeed. -/
def parse_int (s : Str) : Option Int :=
  (parse_base_10 s).orElse fun _ =>
    (parse_base_16 s).orElse fun _ =>
      (parse_base_8 s).orElse fun _ => parse_base_2 s

/-- `parse_bool` of `src/bool.rs`: the regex
`^([tT]|[fF]|true|false|TRUE|FALSE)$` followed by the match on the captured
text.  The inner arms mirror the Rust `match`; its `_ => None` arm is kept
even though the regex makes it unreachable. -/
def parse_bool (s : Str) : Option Bool :=
  if s = ['t'] ∨ s = ['T'] ∨ s = ['f'] ∨ s = ['F'] ∨
      s = ['t', 'r', 'u', 'e'] ∨ s = ['f', 'a', 'l', 's', 'e'] ∨
      s = ['T', 'R', 'U', 'E'] ∨ s = ['F', 'A', 'L', 'S', 'E'] then
    if s = ['t'] ∨ s = ['T'] ∨ s = ['t', 'r', 'u', 'e'] ∨ s = ['T', 'R', 'U', 'E'] then
      some true
    else if s = ['f'] ∨ s = ['F'] ∨ s = ['f', 'a', 'l', 's', 'e'] ∨ s = ['F', 'A', 'L', 'S', 'E'] then
      some false
    else none
  else none

/-- A run of 1 to `hi` decimal digits. -/
def digitsRun1 (l : Str) (hi : Nat) : Bool :=
  l.all Char.isDigit && decide (1 ≤ l.length) && decide (l.length ≤ hi)

/-- A run of 0 to `hi` decimal digits. -/
def digitsRun0 (l : Str) (hi : Nat) : Bool :=
  l.all Char.isDigit && decide (l.length ≤ hi)

/-- Mantissa alternative of the float regex of `src/floats.rs`:
`([0-9]{1,17})|([0-9]{1,17}.[0-9]{1,17})|([0-9]{0,17}.[0-9]{1,17})`.
The dot of the source pattern is not escaped, so it matches an arbitrary
character; the second alternative is subsumed by the third. -/
def floatMant (m : Str) : Bool :=
  digitsRun1 m 17 ||
    (List.range m.length).any fun i =>
      digitsRun0 (m.take i) 17 && digitsRun1 (m.drop (i + 1)) 17

/-- The `[+-]?[0-9]{0,17}` part following the optional exponent marker. -/
def floatExpTail (e : Str) : Bool :=
  match e with
  | [] => true
  | c :: rest =>
    if c = '+' ∨ c = '-' then digitsRun0 rest 17 else digitsRun0 e 17

/-- The `[eE]?[+-]?[0-9]{0,17}` suffix of the float regex. -/
def floatExp (e : Str) : Bool :=
  floatExpTail e ||
    (match e with
     | c :: rest => (c = 'e' || c = 'E') && floatExpTail rest
     | [] => false)

/-- The numeral branch of the float regex: a mantissa followed by the
optional exponent suffix. -/
def floatBody (t : Str) : Bool :=
  (List.range (t.length + 1)).any fun j =>
    floatMant (t.take j) && floatExp (t.drop j)

/-- The alternatives inside the optional sign: `inf`, `Nan`, or a numeral. -/
def floatCore (t : Str) : Bool :=
  decide (t = ['i', 'n', 'f']) || decide (t = ['N', 'a', 'n']) || floatBody t

/-- Whole-string match of the float regex of `src/floats.rs`:
`^([+-]?(inf|Nan|(mantissa [eE]? [+-]? [0-9]{0,17})))$`. -/
def isFloatLex (s : Str) : Bool :=
  match s with
  | [] => false
  | c :: rest => if c = '+' ∨ c = '-' then floatCore rest else floatCore s

/-- Lower-cased copy of a string, for the case-insensitive special tokens
of the standard float decoder. -/
def lowerAll (s : Str) : Str := s.map Char.toLower

/-- Sign and at least one digit, for the exponent of the standard float
grammar. -/
def f64SignDigits (e : Str) : Bool :=
  match e with
  | [] => false
  | c :: rest =>
    if c = '+' ∨ c = '-' then decide (rest ≠ []) && rest.all Char.isDigit
    else e.all Char.isDigit

/-- Exponent part of the standard float grammar: empty, or an exponent
marker followed by an optional sign and at least one digit. -/
def f64ExpOk (e : Str) : Bool :=
  match e with
  | [] => true
  | c :: rest => (c = 'e' || c = 'E') && f64SignDigits rest

/-- Mantissa of the standard float grammar: a digit run, a digit run
followed by `.` and an optional digit run, or `.` followed by a digit
run. -/
def f64MantOk (m : Str) : Bool :=
  (decide (m ≠ []) && m.all Char.isDigit) ||
    (List.range m.length).any fun i =>
      (m.take i).all Char.isDigit &&
        (match m.drop i with
         | '.' :: b => b.all Char.isDigit && (decide (0 < i) || decide (b ≠ []))
         | _ => false)

/-- Numeral of the standard float grammar: mantissa then exponent part. -/
def f64Number (t : Str) : Bool :=
  (List.range (t.length + 1)).any fun j =>
    f64MantOk (t.take j) && f64ExpOk (t.drop j)

/-- Modelled from the spec: the standard IEEE-754 double decoding
collaborator (`f64::from_str`), restricted to its domain.  The documented
grammar is an optional sign followed by `inf`, `infinity` or `nan`
(case-insensitively) or a numeral; out-of-range numerals decode to an
infinity rather than failing, so success is a purely lexical question. -/
def rustF64Ok (s : Str) : Bool :=
  match s with
  | [] => false
  | c :: rest =>
    let core := fun (t : Str) =>
      decide (lowerAll t = ['i', 'n', 'f']) ||
        decide (lowerAll t = ['i', 'n', 'f', 'i', 'n', 'i', 't', 'y']) ||
        decide (lowerAll t = ['n', 'a', 'n']) || f64Number t
    if c = '+' ∨ c = '-' then core rest else core s

/-- `parse_float` of `src/floats.rs`: the anchored regex makes capture
group 1 the whole input, which is handed to `f64::from_str`.  The decoded
double itself is represented opaquely by the token that produced it: no
claim depends on the arithmetic of the decoded value, only on which
strings the detector accepts. -/
def parse_float (s : Str) : Option Str :=
  if isFloatLex s && rustF64Ok s then some s else none

/-- One dotted-decimal octet of an IPv4 address: 1 to 3 digits, no leading
zero, value at most 255, mirroring the standard parser's
`read_number(10, Some(3), false)` into a `u8`. -/
def parseOctet (p : Str) : Option Nat :=
  if p ≠ [] ∧ p.length ≤ 3 ∧ p.all Char.isDigit ∧ (p.length = 1 ∨ p.headD ' ' ≠ '0') then
    let n := natOfDigits p
    if n ≤ 255 then some n else none
  else none

/-- Modelled from the spec: the standard IPv4 textual form, four
dot-separated octets consuming the whole string. -/
def parseIpv4 (s : Str) : Option (Nat × Nat × Nat × Nat) :=
  match splitOnChar '.' s with
  | [a, b, c, d] =>
    match parseOctet a, parseOctet b, parseOctet c, parseOctet d with
    | some x, some y, some z, some w => some (x, y, z, w)
    | _, _, _, _ => none
  | _ => none

/-- One 16-bit group of an IPv6 address: 1 to 4 hexadecimal digits,
leading zeros allowed, mirroring `read_number(16, Some(4), true)`. -/
def parseH16 (p : Str) : Option Nat :=
  if p ≠ [] ∧ p.length ≤ 4 ∧ p.all fun c => (digitVal 16 c).isSome then
    some (p.foldl (fun acc c => acc * 16 + (digitVal 16 c).getD 0) 0)
  else none

/-- The two 16-bit groups contributed by an IPv4 address embedded at the
end of an IPv6 address. -/
def v4Groups (q : Nat × Nat × Nat × Nat) : List Nat :=
  [q.1 * 256 + q.2.1, q.2.2.1 * 256 + q.2.2.2]

/-- Groups after the `::` compression (or the groups of an uncompressed
tail): every part is a 16-bit group except that the last may be an
embedded IPv4 address counting as two groups. -/
def parseTailGroups (parts : List Str) : Option (List Nat) :=
  match parts.reverse with
  | [] => some []
  | last :: revInit =>
    match (revInit.reverse).mapM parseH16 with
    | none => none
    | some gs =>
      match parseH16 last with
      | some g => some (gs ++ [g])
      | none =>
        match parseIpv4 last with
        | some q => some (gs ++ v4Groups q)
        | none => none

/-- Modelled from the spec: the standard IPv6 textual form.  Without `::`
the string is exactly eight colon-separated 16-bit groups, or six groups
and a trailing embedded IPv4 address.  With one `::` the head and tail
carry at most seven groups in total, the compression standing for the
remaining zero groups; scope identifiers are not part of the bare-address
grammar. -/
def parseIpv6 (s : Str) : Option (List Nat) :=
  match findDoubleColon s with
  | none =>
    let parts := splitOnChar ':' s
    if parts.length = 8 then parts.mapM parseH16
    else if parts.length = 7 then
      match (parts.take 6).mapM parseH16, parseIpv4 (parts.getLastD []) with
      | some hd, some q => some (hd ++ v4Groups q)
      | _, _ => none
    else none
  | some (l, r) =>
    if (findDoubleColon r).isSome then none
    else
      let lparts : List Str := if l = [] then [] else splitOnChar ':' l
      let rparts : List Str := if r = [] then [] else splitOnChar ':' r
      match lparts.mapM parseH16, parseTailGroups rparts with
      | some lg, some rg =>
        if lg.length + rg.length ≤ 7 then
          some (lg ++ List.replicate (8 - lg.length - rg.length) 0 ++ rg)
        else none
      | _, _ => none

/-- IP address payload: the four octets of an IPv4 address or the eight
16-bit groups of an IPv6 address. -/
inductive IpAddress where
  | V4 (a b c d : Nat)
  | V6 (groups : List Nat)
  deriving DecidableEq

/-- Socket address payload: an IP address together with a 16-bit port. -/
structure SockAddress where
  ip : IpAddress
  port : Nat
  deriving DecidableEq

/-- A decimal port number, any number of digits with leading zeros
allowed, failing on values above 65535, mirroring
`read_number(10, None, true)` into a `u16`. -/
def parsePort (p : Str) : Option Nat :=
  if p ≠ [] ∧ p.all Char.isDigit then
    let n := natOfDigits p
    if n ≤ 65535 then some n else none
  else none

/-- `parse_ip` of `src/socketaddr.rs`, delegating to the standard
`IpAddr::from_str`: an IPv4 address or an IPv6 address. -/
def parse_ip (s : Str) : Option IpAddress :=
  match parseIpv4 s with
  | some q => some (IpAddress.V4 q.1 q.2.1 q.2.2.1 q.2.2.2)
  | none => (parseIpv6 s).map IpAddress.V6

/-- `parse_socket` of `src/socketaddr.rs`, delegating to the standard
`SocketAddr::from_str`: an IPv4 address, `:` and a port, or a bracketed
IPv6 address, `:` and a port. -/
def parse_socket (s : Str) : Option SockAddress :=
  match s with
  | '[' :: rest =>
    match splitFirst ']' rest with
    | some (inner, after) =>
      match after with
      | ':' :: portStr =>
        match parseIpv6 inner, parsePort portStr with
        | some g, some p => some ⟨IpAddress.V6 g, p⟩
        | _, _ => none
      | _ => none
    | none => none
  | _ =>
    match splitFirst ':' s with
    | some (left, right) =>
      match parseIpv4 left, parsePort right with
      | some q, some p => some ⟨IpAddress.V4 q.1 q.2.1 q.2.2.1 q.2.2.2, p⟩
      | _, _ => none
    | none => none

/-- The `Value` enum of `src/lib.rs`.  Every variant carries the raw text
that produced it.  The `Float` payload is the decoded token (see
`parse_float`); the `Int` payload is a mathematical integer that the
decoder guarantees to lie in the signed 64-bit range. -/
inductive Value where
  | String (raw : Str)
  | Bool (b : Bool) (raw : Str)
  | Int (i : Int) (raw : Str)
  | Float (f : Str) (raw : Str)
  | SocketAddr (a : SockAddress) (raw : Str)
  | IpAddr (a : IpAddress) (raw : Str)
  | Array (elems : List Value) (raw : Str)

/-- `Value::as_str` of `src/lib.rs`: every variant yields its raw text. -/
def Value.as_str : Value → Option Str
  | .String s => some s
  | .Bool _ s => some s
  | .Int _ s => some s
  | .Float _ s => some s
  | .SocketAddr _ s => some s
  | .IpAddr _ s => some s
  | .Array _ s => some s

/-- `Value::as_bool` of `src/lib.rs`. -/
def Value.as_bool : Value → Option BoolT
  | .Bool b _ => some b
  | _ => none

/-- `Value::as_int` of `src/lib.rs`. -/
def Value.as_int : Value → Option IntT
  | .Int i _ => some i
  | _ => none

/-- `Value::as_float` of `src/lib.rs` (payload modelled as the decoded
token, see `parse_float`). -/
def Value.as_float : Value → Option Str
  | .Float f _ => some f
  | _ => none

/-- `Value::as_socket` of `src/lib.rs`. -/
def Value.as_socket : Value → Option SockAddress
  | .SocketAddr a _ => some a
  | _ => none

/-- `Value::as_ipv4` of `src/lib.rs`: only the V4 form of an `IpAddr`
variant projects. -/
def Value.as_ipv4 : Value → Option (Nat × Nat × Nat × Nat)
  | .IpAddr (.V4 a b c d) _ => some (a, b, c, d)
  | _ => none

/-- `Value::as_ipv6` of `src/lib.rs`: only the V6 form of an `IpAddr`
variant projects. -/
def Value.as_ipv6 : Value → Option (List Nat)
  | .IpAddr (.V6 g) _ => some g
  | _ => none

/-- Whether a value is the `Array` variant. -/
def Value.isArr : Value → BoolT
  | .Array _ _ => true
  | _ => false

/-- The five leaf detectors of `Value::new`, in source order: integer,
float, boolean, socket address, IP address.  The first success wins,
mirroring the lazy iterator chain of `src/lib.rs`. -/
def leafParse (arg : Str) : Option Value :=
  match parse_int arg with
  | some v => some (Value.Int v arg)
  | none =>
    match parse_float arg with
    | some v => some (Value.Float v arg)
    | none =>
      match parse_bool arg with
      | some v => some (Value.Bool v arg)
      | none =>
        match parse_socket arg with
        | some v => some (Value.SocketAddr v arg)
        | none =>
          match parse_ip arg with
          | some v => some (Value.IpAddr v arg)
          | none => none

/-- The trimmed, non-empty segments of the delimiter split of
`Value::split`: split on every `:`, trim each piece, discard pieces that
are empty after trimming. -/
def nonEmptySegs (arg : Str) : List Str :=
  ((splitOnChar ':' arg).map trimChars).filter fun p => !p.isEmpty

/-- `Value::split` of `src/lib.rs`, parameterised by the recursive
invocation of the cascade used on each segment: no match without the
delimiter, no match when no segment survives, a single surviving segment
is returned directly (`collection[0].clone()`), and two or more segments
become an `Array` carrying the complete un-split input as raw text. -/
def valueSplitWith (rec : Str → Value) (arg : Str) : Option Value :=
  if ':' ∈ arg then
    match (nonEmptySegs arg).map rec with
    | [] => none
    | [v] => some v
    | vs => some (Value.Array vs arg)
  else none

/-- `Value::new` of `src/lib.rs` with an explicit fuel bounding the
recursion depth of the splitter; `valueNew_depth_two` below shows any fuel
of at least 2 computes the same value, so the fuel is a faithful rendering
of the (always terminating) Rust recursion. -/
def valueNew : Nat → Str → Value
  | 0, arg => Value.String arg
  | n + 1, arg =>
    match leafParse arg with
    | some v => v
    | none =>
      match valueSplitWith (fun t => valueNew n t) arg with
      | some v => v
      | none => Value.String arg

/-- `Value::new`: the cascade run with enough fuel (the input length
strictly bounds every segment's length, hence the recursion depth). -/
def Value.new (arg : Str) : Value := valueNew (arg.length + 1) arg

/-- Modelled from the spec: the normative cascade written directly from
the specification's words — try integer, float, boolean, socket address,
IP address, then the delimiter split (whose segments re-run the full
cascade), with the original string unchanged as the always-available final
fallback; the first detector that matches and decodes wins. -/
def cascadeOrdered (arg : Str) : Value :=
  (((parse_int arg).map fun v => Value.Int v arg).orElse fun _ =>
    ((parse_float arg).map fun v => Value.Float v arg).orElse fun _ =>
      ((parse_bool arg).map fun v => Value.Bool v arg).orElse fun _ =>
        ((parse_socket arg).map fun v => Value.SocketAddr v arg).orElse fun _ =>
          ((parse_ip arg).map fun v => Value.IpAddr v arg).orElse fun _ =>
            valueSplitWith Value.new arg).getD (Value.String arg)

/-- The `Envir` snapshot of `src/lib.rs`: an immutable mapping built once
from (name, value) pairs by running `Value::new` over every entry. -/
structure Envir where
  data : List (Str × Value)

/-- Construction of the snapshot from the entries supplied by the data
source, mirroring `Envir::default`: each value is inferred by
`Value::new`.  Duplicate keys are resolved last-wins by the `HashMap`
collection, reflected here by `Envir.get` searching from the end. -/
def Envir.build (entries : List (Str × Str)) : Envir :=
  ⟨entries.map fun kv => (kv.1, Value.new kv.2)⟩

/-- `Envir::get` of `src/lib.rs`: exact, case-sensitive key lookup
returning absence when the key is missing. -/
def Envir.get (e : Envir) (k : Str) : Option Value :=
  (e.data.reverse.find? fun kv => decide (kv.1 = k)).map fun kv => kv.2

/-- `Envir::get_bool` of `src/lib.rs`. -/
def Envir.get_bool (e : Envir) (k : Str) : Option Bool :=
  (e.get k).bind Value.as_bool

/-- `Envir::get_int` of `src/lib.rs`. -/
def Envir.get_int (e : Envir) (k : Str) : Option Int :=
  (e.get k).bind Value.as_int

/-- `Envir::get_str` of `src/lib.rs`. -/
def Envir.get_str (e : Envir) (k : Str) : Option Str :=
  (e.get k).bind Value.as_str

/-- Whether a value is an `Array` having an `Array` among its direct
elements — the nesting scenario of the specification. -/
def Value.hasNestedArr : Value → BoolT
  | .Array elems _ => elems.any Value.isArr
  | _ => false

/-- The split never produces an empty list of pieces. -/
theorem splitOnChar_ne_nil (sep : Char) (s : Str) : splitOnChar sep s ≠ [] := by
  cases s with
  | nil => simp [splitOnChar]
  | cons c rest =>
    simp only [splitOnChar]
    cases splitOnChar sep rest with
    | nil => by_cases hc : c = sep <;> simp [hc]
    | cons p ps => by_cases hc : c = sep <;> simp [hc]

/-- Splitting on every occurrence of the separator leaves pieces that do
not contain it. -/
theorem splitOnChar_not_mem (sep : Char) :
    ∀ s : Str, ∀ p ∈ splitOnChar sep s, sep ∉ p := by
  intro s
  induction s with
  | nil =>
    intro p hp
    simp [splitOnChar] at hp
    simp [hp]
  | cons c rest ih =>
    intro p hp
    simp only [splitOnChar] at hp
    cases hrec : splitOnChar sep rest with
    | nil => exact absurd hrec (splitOnChar_ne_nil sep rest)
    | cons q qs =>
      rw [hrec] at hp
      by_cases hc : c = sep
      · simp only [if_pos hc, List.mem_cons] at hp
        rcases hp with h | h
        · simp [h]
        · exact ih p (by rw [hrec]; exact List.mem_cons.2 h)
      · simp only [if_neg hc, List.mem_cons] at hp
        rcases hp with h | h
        · subst h
          intro hmem
          rcases List.mem_cons.1 hmem with h1 | h1
          · exact hc h1.symm
          · exact ih q (by rw [hrec]; exact List.mem_cons_self q qs) h1
        · exact ih p (by rw [hrec]; exact List.mem_cons_of_mem q h)

/-- Trimming only removes characters. -/
theorem mem_trimChars {c : Char} {l : Str} (h : c ∈ trimChars l) : c ∈ l := by
  unfold trimChars at h
  rw [List.mem_reverse] at h
  have h2 := (List.dropWhile_sublist (l := (l.dropWhile Char.isWhitespace).reverse)
    (p := Char.isWhitespace)).mem h
  rw [List.mem_reverse] at h2
  exact (List.dropWhile_sublist (l := l) (p := Char.isWhitespace)).mem h2

/-- Every trimmed non-empty segment of the delimiter split is free of the
delimiter. -/
theorem segs_no_colon {s t : Str} (h : t ∈ nonEmptySegs s) : ':' ∉ t := by
  unfold nonEmptySegs at h
  have h1 := List.mem_of_mem_filter h
  rcases List.mem_map.1 h1 with ⟨p, hp, rfl⟩
  intro hmem
  exact splitOnChar_not_mem ':' s p hp (mem_trimChars hmem)

/-- The leaf cascade: `Value::new` when the splitter does not fire. -/
def valueLeafOnly (arg : Str) : Value :=
  match leafParse arg with
  | some v => v
  | none => Value.String arg

/-- A successful leaf detector stores the whole input as raw text. -/
theorem leafParse_as_str {s : Str} {v : Value} (h : leafParse s = some v) :
    v.as_str = some s := by
  unfold leafParse at h
  cases h1 : parse_int s with
  | some x => rw [h1] at h; cases h; rfl
  | none =>
    rw [h1] at h
    cases h2 : parse_float s with
    | some x => rw [h2] at h; cases h; rfl
    | none =>
      rw [h2] at h
      cases h3 : parse_bool s with
      | some x => rw [h3] at h; cases h; rfl
      | none =>
        rw [h3] at h
        cases h4 : parse_socket s with
        | some x => rw [h4] at h; cases h; rfl
        | none =>
          rw [h4] at h
          cases h5 : parse_ip s with
          | some x => rw [h5] at h; cases h; rfl
          | none => rw [h5] at h; cases h

/-- No leaf detector produces the `Array` variant. -/
theorem leafParse_not_array {s : Str} {v : Value} (h : leafParse s = some v) :
    v.isArr = false := by
  unfold leafParse at h
  cases h1 : parse_int s with
  | some x => rw [h1] at h; cases h; rfl
  | none =>
    rw [h1] at h
    cases h2 : parse_float s with
    | some x => rw [h2] at h; cases h; rfl
    | none =>
      rw [h2] at h
      cases h3 : parse_bool s with
      | some x => rw [h3] at h; cases h; rfl
      | none =>
        rw [h3] at h
        cases h4 : parse_socket s with
        | some x => rw [h4] at h; cases h; rfl
        | none =>
          rw [h4] at h
          cases h5 : parse_ip s with
          | some x => rw [h5] at h; cases h; rfl
          | none => rw [h5] at h; cases h

/-- The leaf cascade preserves its input as raw text. -/
theorem valueLeafOnly_as_str (s : Str) : (valueLeafOnly s).as_str = some s := by
  unfold valueLeafOnly
  cases h : leafParse s with
  | some v => exact leafParse_as_str h
  | none => rfl

/-- The leaf cascade never produces the `Array` variant. -/
theorem valueLeafOnly_not_array (s : Str) : (valueLeafOnly s).isArr = false := by
  unfold valueLeafOnly
  cases h : leafParse s with
  | some v => exact leafParse_not_array h
  | none => rfl

/-- Unfolding equation of the fuelled cascade at positive fuel. -/
theorem valueNew_succ (n : Nat) (arg : Str) :
    valueNew (n + 1) arg =
      match leafParse arg with
      | some v => v
      | none =>
        match valueSplitWith (fun t => valueNew n t) arg with
        | some v => v
        | none => Value.String arg := rfl

/-- Without the delimiter the splitter reports no match. -/
theorem valueSplitWith_none (rec : Str → Value) {s : Str} (h : ':' ∉ s) :
    valueSplitWith rec s = none := by
  unfold valueSplitWith
  simp [h]

/-- Without the delimiter the cascade is the leaf cascade, whatever the
fuel. -/
theorem valueNew_of_not_colon (n : Nat) {s : Str} (h : ':' ∉ s) :
    valueNew (n + 1) s = valueLeafOnly s := by
  rw [valueNew_succ, valueSplitWith_none _ h, valueLeafOnly]

/-- `Value::new` on a delimiter-free string is the leaf cascade. -/
theorem new_of_not_colon {s : Str} (h : ':' ∉ s) : Value.new s = valueLeafOnly s :=
  valueNew_of_not_colon s.length h

/-- The splitter only looks at the recursive cascade's value on the
surviving segments. -/
theorem valueSplitWith_congr {f g : Str → Value} (s : Str)
    (h : ∀ t ∈ nonEmptySegs s, f t = g t) :
    valueSplitWith f s = valueSplitWith g s := by
  unfold valueSplitWith
  rw [List.map_congr_left h]

/-- Case analysis of `Value::new`: either a leaf detector wins, or the
splitter collapses a single surviving segment, or the splitter builds an
array of fully inferred segment values, or the string fallback fires. -/
theorem new_master (s : Str) :
    (∃ v, leafParse s = some v ∧ Value.new s = v) ∨
    (leafParse s = none ∧ ∃ t, nonEmptySegs s = [t] ∧ ':' ∉ t ∧ ':' ∈ s ∧
      Value.new s = valueLeafOnly t) ∨
    (leafParse s = none ∧ ':' ∈ s ∧ 2 ≤ (nonEmptySegs s).length ∧
      Value.new s = Value.Array ((nonEmptySegs s).map Value.new) s) ∨
    (leafParse s = none ∧ (':' ∉ s ∨ nonEmptySegs s = []) ∧
      Value.new s = Value.String s) := by
  cases hl : leafParse s with
  | some v =>
    left
    exact ⟨v, rfl, by simp only [Value.new, valueNew, hl]⟩
  | none =>
    have hstep : Value.new s =
        match valueSplitWith (fun t => valueNew s.length t) s with
        | some w => w
        | none => Value.String s := by
      simp only [Value.new, valueNew, hl]
    by_cases hc : ':' ∈ s
    · obtain ⟨k, hk⟩ : ∃ k, s.length = k + 1 := by
        cases s with
        | nil => cases hc
        | cons a as => exact ⟨as.length, rfl⟩
      have hsplit : valueSplitWith (fun t => valueNew s.length t) s =
          match (nonEmptySegs s).map (fun t => valueNew s.length t) with
          | [] => none
          | [v] => some v
          | vs => some (Value.Array vs s) := by
        unfold valueSplitWith
        rw [if_pos hc]
      cases hsegs : nonEmptySegs s with
      | nil =>
        right; right; right
        refine ⟨rfl, Or.inr rfl, ?_⟩
        rw [hstep, hsplit, hsegs]
        rfl
      | cons t ts =>
        have hmem_t : t ∈ nonEmptySegs s := by
          rw [hsegs]; exact List.mem_cons_self t ts
        have hnc_t : ':' ∉ t := segs_no_colon hmem_t
        cases ts with
        | nil =>
          right; left
          refine ⟨rfl, t, rfl, hnc_t, hc, ?_⟩
          rw [hstep, hsplit, hsegs]
          show valueNew s.length t = valueLeafOnly t
          rw [hk]
          exact valueNew_of_not_colon k hnc_t
        | cons t2 ts2 =>
          right; right; left
          have hcongr : ∀ u ∈ (t :: t2 :: ts2),
              (fun x => valueNew s.length x) u = Value.new u := by
            intro u hu
            have hu2 : u ∈ nonEmptySegs s := by rw [hsegs]; exact hu
            have hncu : ':' ∉ u := segs_no_colon hu2
            show valueNew s.length u = Value.new u
            rw [hk, valueNew_of_not_colon k hncu, new_of_not_colon hncu]
          refine ⟨rfl, hc, by simp only [List.length_cons]; omega, ?_⟩
          rw [hstep, hsplit, hsegs]
          show Value.Array ((t :: t2 :: ts2).map (fun x => valueNew s.length x)) s =
            Value.Array ((t :: t2 :: ts2).map Value.new) s
          rw [List.map_congr_left hcongr]
    · right; right; right
      refine ⟨rfl, Or.inl hc, ?_⟩
      rw [hstep, valueSplitWith_none _ hc]

/-- Fuel beyond 2 never matters: the segments of the split are free of the
delimiter, so the inner cascade never reaches its own splitter. -/
theorem valueNew_two_eq (m : Nat) (s : Str) : valueNew (m + 2) s = valueNew 2 s := by
  rw [show m + 2 = (m + 1) + 1 from rfl, valueNew_succ]
  rw [show (2 : Nat) = 1 + 1 from rfl, valueNew_succ]
  have hcongr : valueSplitWith (fun t => valueNew (m + 1) t) s =
      valueSplitWith (fun t => valueNew 1 t) s := by
    apply valueSplitWith_congr
    intro u hu
    have hncu : ':' ∉ u := segs_no_colon hu
    show valueNew (m + 1) u = valueNew 1 u
    rw [valueNew_of_not_colon m hncu, show (1 : Nat) = 0 + 1 from rfl,
      valueNew_of_not_colon 0 hncu]
  rw [hcongr]

/-- Any fuel of at least two computes the same value. -/
theorem valueNew_ge_two {n : Nat} (hn : 2 ≤ n) (s : Str) :
    valueNew n s = valueNew 2 s := by
  obtain ⟨m, rfl⟩ : ∃ m, n = m + 2 := ⟨n - 2, by omega⟩
  exact valueNew_two_eq m s

/-- `Value::new` is the fuel-2 cascade: the recursion depth is at most
two. -/
theorem new_eq_fuel_two (s : Str) : Value.new s = valueNew 2 s := by
  unfold Value.new
  by_cases hc : ':' ∈ s
  · have h2 : 2 ≤ s.length + 1 := by
      cases s with
      | nil => cases hc
      | cons a as => simp only [List.length_cons]; omega
    exact valueNew_ge_two h2 s
  · rw [valueNew_of_not_colon s.length hc, show (2 : Nat) = 1 + 1 from rfl,
      valueNew_of_not_colon 1 hc]

/-- In `Value::new`, handing the splitter the fuelled cascade is the same
as handing it `Value::new` itself: segments are delimiter-free. -/
theorem new_split_arg (s : Str) :
    valueSplitWith (fun t => valueNew s.length t) s = valueSplitWith Value.new s := by
  by_cases hc : ':' ∈ s
  · obtain ⟨k, hk⟩ : ∃ k, s.length = k + 1 := by
      cases s with
      | nil => cases hc
      | cons a as => exact ⟨as.length, rfl⟩
    apply valueSplitWith_congr
    intro u hu
    have hncu : ':' ∉ u := segs_no_colon hu
    show valueNew s.length u = Value.new u
    rw [hk, valueNew_of_not_colon k hncu, new_of_not_colon hncu]
  · rw [valueSplitWith_none _ hc, valueSplitWith_none _ hc]

/-- C1 counterexample: for the input `"lonely:"` the cascade collapses the
single surviving segment, so `as_str` returns `"lonely"`, not the original
input text `"lonely:"` — refuting the claim that `as_str` always returns
exactly the original input. -/
theorem C1_as_str_counterexample :
    (Value.new ['l', 'o', 'n', 'e', 'l', 'y', ':']).as_str =
      some ['l', 'o', 'n', 'e', 'l', 'y'] ∧
    (Value.new ['l', 'o', 'n', 'e', 'l', 'y', ':']).as_str ≠
      some ['l', 'o', 'n', 'e', 'l', 'y', ':'] := by
  exact ⟨rfl, by decide⟩

/-- C1 (amended): for every input, re-running the cascade on the produced
value's preserved raw text yields a value equal to the original
(idempotence of construction); and `as_str` returns exactly the original
input text — for an `Array`, the complete un-split original — except when
the delimiter split collapses to a single surviving segment, in which case
`as_str` returns that trimmed segment. -/
theorem C1_round_trip (s : Str) :
    Value.new (((Value.new s).as_str).getD []) = Value.new s ∧
    ((Value.new s).as_str = some s ∨
      ∃ t, nonEmptySegs s = [t] ∧ (Value.new s).as_str = some t) := by
  rcases new_master s with ⟨v, hv, hnew⟩ | ⟨-, t, hsegs, hnc, -, hnew⟩ |
    ⟨-, -, -, hnew⟩ | ⟨-, -, hnew⟩
  · have hraw : (Value.new s).as_str = some s := by
      rw [hnew]; exact leafParse_as_str hv
    exact ⟨by rw [hraw]; rfl, Or.inl hraw⟩
  · have hraw : (Value.new s).as_str = some t := by
      rw [hnew]; exact valueLeafOnly_as_str t
    refine ⟨?_, Or.inr ⟨t, hsegs, hraw⟩⟩
    rw [hraw]
    show Value.new t = Value.new s
    rw [hnew, new_of_not_colon hnc]
  · have hraw : (Value.new s).as_str = some s := by rw [hnew]; rfl
    exact ⟨by rw [hraw]; rfl, Or.inl hraw⟩
  · have hraw : (Value.new s).as_str = some s := by rw [hnew]; rfl
    exact ⟨by rw [hraw]; rfl, Or.inl hraw⟩

/-- C9: the splitter removes every occurrence of the delimiter, so each
surviving segment contains no `:` at all; consequently the recursive
cascade invocation on a segment never triggers the splitter again and any
fuel of at least two computes `Value::new` — the recursion depth is at
most two and construction terminates for every input string. -/
theorem C9_depth_two :
    (∀ s t : Str, t ∈ nonEmptySegs s → ':' ∉ t) ∧
    (∀ (n : Nat) (s : Str), 2 ≤ n → valueNew n s = Value.new s) := by
  refine ⟨fun s t ht => segs_no_colon ht, fun n s hn => ?_⟩
  rw [valueNew_ge_two hn s, new_eq_fuel_two s]

/-- C9 witness: concrete instance of both parts on the input `"a:b"` with
fuel 5. -/
theorem C9_depth_two_witness :
    (2 ≤ 5 ∧ ':' ∉ (['a'] : Str)) ∧
    valueNew 5 ['a', ':', 'b'] = Value.new ['a', ':', 'b'] :=
  ⟨⟨by decide, C9_depth_two.1 ['a', ':', 'b'] ['a'] (by decide)⟩,
    C9_depth_two.2 5 ['a', ':', 'b'] (by decide)⟩

/-- The nesting checker is false on every value the cascade produces:
segments are delimiter-free, so no element of an `Array` is an `Array`. -/
theorem new_hasNestedArr_false (s : Str) :
    (Value.new s).hasNestedArr = false := by
  rcases new_master s with ⟨w, hw, h⟩ | ⟨-, t, -, -, -, h⟩ | ⟨-, -, -, h⟩ | ⟨-, -, h⟩
  · rw [h]
    have hfl := leafParse_not_array hw
    cases w <;> simp_all [Value.hasNestedArr, Value.isArr]
  · rw [h]
    have hfl := valueLeafOnly_not_array t
    cases hv : valueLeafOnly t <;> simp_all [Value.hasNestedArr, Value.isArr]
  · rw [h]
    show ((nonEmptySegs s).map Value.new).any Value.isArr = false
    rw [List.any_eq_false]
    intro v hv
    rcases List.mem_map.mp hv with ⟨t, ht, rfl⟩
    have hnc : ':' ∉ t := segs_no_colon ht
    rw [new_of_not_colon hnc, valueLeafOnly_not_array t]
    simp
  · rw [h]
    rfl

/-- C3 counterexample: the claim's nesting scenario is impossible — there
is no input string for which the cascade yields an `Array` one of whose
elements is itself an `Array`: the splitter splits on every occurrence of
the delimiter, so no segment can contain one. -/
theorem C3_nesting_counterexample :
    ¬ ∃ s : Str, (Value.new s).hasNestedArr = true := by
  rintro ⟨s, hs⟩
  rw [new_hasNestedArr_false s] at hs
  exact Bool.noConfusion hs

/-- C3 (amended): each `Array` element is a fully-formed value produced by
re-running the whole cascade on its segment, but arrays never nest — every
element of an `Array` is a non-`Array` value, since every segment is free
of the delimiter. -/
theorem C3_elements_flat (s : Str) (elems : List Value) (raw : Str)
    (h : Value.new s = Value.Array elems raw) :
    elems = (nonEmptySegs s).map Value.new ∧ ∀ v ∈ elems, v.isArr = false := by
  rcases new_master s with ⟨w, hw, hn⟩ | ⟨-, t, -, -, -, hn⟩ | ⟨-, -, -, hn⟩ | ⟨-, -, hn⟩
  · rw [hn] at h
    rw [h] at hw
    have hfl := leafParse_not_array hw
    simp [Value.isArr] at hfl
  · rw [hn] at h
    have hfl := valueLeafOnly_not_array t
    rw [h] at hfl
    simp [Value.isArr] at hfl
  · rw [hn] at h
    cases h
    refine ⟨rfl, fun v hv => ?_⟩
    rcases List.mem_map.mp hv with ⟨t, ht, rfl⟩
    have hnc : ':' ∉ t := segs_no_colon ht
    rw [new_of_not_colon hnc]
    exact valueLeafOnly_not_array t
  · rw [hn] at h
    cases h

/-- C3 witness: the concrete input `"a:b"` produces a two-element array
whose head element is a plain string, hence not an array. -/
theorem C3_elements_flat_witness :
    Value.new ['a', ':', 'b'] =
      Value.Array [Value.String ['a'], Value.String ['b']] ['a', ':', 'b'] ∧
    (Value.String ['a']).isArr = false := by
  have h : Value.new ['a', ':', 'b'] =
      Value.Array [Value.String ['a'], Value.String ['b']] ['a', ':', 'b'] := rfl
  exact ⟨h, (C3_elements_flat ['a', ':', 'b'] _ _ h).2 (Value.String ['a'])
    (List.mem_cons_self _ _)⟩

/-- C5: the delimiter split triggers only when the input contains `:`; it
splits on every occurrence, trims each segment and discards segments empty
after trimming; when the leaf detectors all failed, zero surviving
segments means string fallback, exactly one surviving segment returns that
segment's own inferred value without an array wrapper, and two or more
segments return an array whose preserved raw text is the complete un-split
original input; in particular `"lonely:"` collapses to `String("lonely")`
and `":"` falls back to `String(":")`. -/
theorem C5_split_behavior :
    (∀ s : Str, leafParse s = none → ':' ∈ s → nonEmptySegs s = [] →
      Value.new s = Value.String s) ∧
    (∀ s t : Str, leafParse s = none → ':' ∈ s → nonEmptySegs s = [t] →
      Value.new s = Value.new t) ∧
    (∀ s : Str, leafParse s = none → ':' ∈ s → 2 ≤ (nonEmptySegs s).length →
      Value.new s = Value.Array ((nonEmptySegs s).map Value.new) s) ∧
    (∀ s : Str, leafParse s = none → ':' ∉ s → Value.new s = Value.String s) ∧
    Value.new ['l', 'o', 'n', 'e', 'l', 'y', ':'] = Value.String ['l', 'o', 'n', 'e', 'l', 'y'] ∧
    Value.new [':'] = Value.String [':'] := by
  refine ⟨?_, ?_, ?_, ?_, rfl, rfl⟩
  · intro s hl hc hsegs
    rcases new_master s with ⟨w, hw, hn⟩ | ⟨-, t, ht, -, -, hn⟩ | ⟨-, -, hlen, hn⟩ | ⟨-, -, hn⟩
    · rw [hl] at hw; cases hw
    · rw [hsegs] at ht; cases ht
    · rw [hsegs] at hlen; simp at hlen
    · exact hn
  · intro s t hl hc hsegs
    rcases new_master s with ⟨w, hw, hn⟩ | ⟨-, u, hu, hncu, -, hn⟩ | ⟨-, -, hlen, hn⟩ |
      ⟨-, hor, hn⟩
    · rw [hl] at hw; cases hw
    · rw [hsegs] at hu
      cases hu
      rw [hn, new_of_not_colon hncu]
    · rw [hsegs] at hlen; simp at hlen
    · rcases hor with hor | hor
      · exact absurd hc hor
      · rw [hsegs] at hor; cases hor
  · intro s hl hc hlen
    rcases new_master s with ⟨w, hw, hn⟩ | ⟨-, u, hu, -, -, hn⟩ | ⟨-, -, -, hn⟩ | ⟨-, hor, hn⟩
    · rw [hl] at hw; cases hw
    · rw [hu] at hlen; simp at hlen
    · exact hn
    · rcases hor with hor | hor
      · exact absurd hc hor
      · rw [hor] at hlen; simp at hlen
  · intro s hl hc
    rcases new_master s with ⟨w, hw, hn⟩ | ⟨-, u, -, -, hcs, hn⟩ | ⟨-, hcs, -, hn⟩ | ⟨-, -, hn⟩
    · rw [hl] at hw; cases hw
    · exact absurd hcs hc
    · exact absurd hcs hc
    · exact hn

/-- C5 witness: on `"a:b"` the leaf detectors fail, the input contains the
delimiter, two segments survive, and the result is the array of the
segments' own inferred values carrying the whole input as raw text. -/
theorem C5_split_behavior_witness :
    (leafParse ['a', ':', 'b'] = none ∧ 2 ≤ (nonEmptySegs ['a', ':', 'b']).length) ∧
    Value.new ['a', ':', 'b'] =
      Value.Array ((nonEmptySegs ['a', ':', 'b']).map Value.new) ['a', ':', 'b'] :=
  ⟨⟨rfl, by decide⟩,
    C5_split_behavior.2.2.1 ['a', ':', 'b'] rfl (by decide) (by decide)⟩

/-- C2: for every input string, construction produces exactly one value
and never fails: `Value::new` coincides with the cascade written from the
spec's normative priority order — integer, then float, then boolean, then
socket address, then IP address, then delimiter split, with the original
string as the always-available final fallback; in particular
`"127.0.0.1:8080"` becomes a `SocketAddr` and not an `Array`. -/
theorem C2_priority_order :
    (∀ s : Str, Value.new s = cascadeOrdered s) ∧
    Value.new ['1', '2', '7', '.', '0', '.', '0', '.', '1', ':', '8', '0', '8', '0'] =
      Value.SocketAddr ⟨IpAddress.V4 127 0 0 1, 8080⟩
        ['1', '2', '7', '.', '0', '.', '0', '.', '1', ':', '8', '0', '8', '0'] ∧
    (Value.new ['1', '2', '7', '.', '0', '.', '0', '.', '1', ':', '8', '0', '8', '0']).isArr =
      false := by
  refine ⟨?_, rfl, rfl⟩
  intro s
  have hstep : Value.new s =
      match leafParse s with
      | some v => v
      | none =>
        match valueSplitWith (fun t => valueNew s.length t) s with
        | some w => w
        | none => Value.String s := by
    simp only [Value.new, valueNew]
  rw [hstep, new_split_arg]
  unfold cascadeOrdered leafParse
  cases parse_int s <;> cases parse_float s <;> cases parse_bool s <;>
    cases parse_socket s <;> cases parse_ip s <;>
      simp only [Option.map, Option.orElse, Option.getD] <;>
      cases valueSplitWith Value.new s <;> rfl

/-- C4: a decimal lexical match whose decode leaves the signed 64-bit
range is a non-match of that lexical form, and the remaining integer
forms (not the next top-level detector) are tried next; the 19-nines
string exhibits the overflow, and the claim's 20-nines input
`"99999999999999999999"` does not become `Int` — it falls through to the
float detector, never truncating or wrapping. -/
theorem C4_overflow_fallthrough :
    (∀ s : Str, parse_base_10 s = none →
      parse_int s = ((parse_base_16 s).orElse fun _ =>
        (parse_base_8 s).orElse fun _ => parse_base_2 s)) ∧
    (isDecLex (List.replicate 19 '9') = true ∧
      fromStrRadix (List.replicate 19 '9') 10 = none ∧
      parse_int (List.replicate 19 '9') = none) ∧
    parse_int (List.replicate 20 '9') = none ∧
    Value.new (List.replicate 20 '9') =
      Value.Float (List.replicate 20 '9') (List.replicate 20 '9') := by
  refine ⟨?_, ⟨by decide, by decide, by decide⟩, by decide, rfl⟩
  intro s h
  unfold parse_int
  rw [h]
  rfl

/-- C4 witness: the fall-through equation applied at the overflowing
19-nines decimal string. -/
theorem C4_overflow_fallthrough_witness :
    parse_base_10 (List.replicate 19 '9') = none ∧
    parse_int (List.replicate 19 '9') =
      ((parse_base_16 (List.replicate 19 '9')).orElse fun _ =>
        (parse_base_8 (List.replicate 19 '9')).orElse fun _ =>
          parse_base_2 (List.replicate 19 '9')) :=
  ⟨by decide, C4_overflow_fallthrough.1 (List.replicate 19 '9') (by decide)⟩

/-- A string shaped like a prefixed integer literal (`0` followed by a
non-digit tag character) never matches the decimal form. -/
theorem prefixShape_not_dec {c2 : Char} (hc : c2.isDigit = false) (ds : Str) :
    isDecLex ('0' :: c2 :: ds) = false := by
  have h : isDecLex ('0' :: c2 :: ds) =
      if ('0' : Char) = '-' ∨ ('0' : Char) = '|' ∨ ('0' : Char) = '+' then
        (c2 :: ds).all Char.isDigit && decide (1 ≤ (c2 :: ds).length) &&
          decide ((c2 :: ds).length ≤ 19)
      else
        ('0' :: c2 :: ds).all Char.isDigit && decide (1 ≤ ('0' :: c2 :: ds).length) &&
          decide (('0' :: c2 :: ds).length ≤ 19) := rfl
  rw [h, if_neg (by decide)]
  simp [List.all_cons, hc]

/-- A hexadecimal lexical match forces the `0x` prefix. -/
theorem isHexLex_shape {s : Str} (h : isHexLex s = true) : ∃ ds, s = '0' :: 'x' :: ds := by
  rcases s with _ | ⟨c1, _ | ⟨c2, ds⟩⟩
  · exact Bool.noConfusion h
  · exact Bool.noConfusion h
  · simp only [isHexLex, Bool.and_eq_true, decide_eq_true_eq] at h
    obtain ⟨⟨⟨⟨h0, hx⟩, -⟩, -⟩, -⟩ := h
    subst h0
    subst hx
    exact ⟨ds, rfl⟩

/-- An octal lexical match forces the `0o` prefix. -/
theorem isOctLex_shape {s : Str} (h : isOctLex s = true) : ∃ ds, s = '0' :: 'o' :: ds := by
  rcases s with _ | ⟨c1, _ | ⟨c2, ds⟩⟩
  · exact Bool.noConfusion h
  · exact Bool.noConfusion h
  · simp only [isOctLex, Bool.and_eq_true, decide_eq_true_eq] at h
    obtain ⟨⟨⟨⟨h0, hx⟩, -⟩, -⟩, -⟩ := h
    subst h0
    subst hx
    exact ⟨ds, rfl⟩

/-- A binary lexical match forces the `0b` prefix. -/
theorem isBinLex_shape {s : Str} (h : isBinLex s = true) : ∃ ds, s = '0' :: 'b' :: ds := by
  rcases s with _ | ⟨c1, _ | ⟨c2, ds⟩⟩
  · exact Bool.noConfusion h
  · exact Bool.noConfusion h
  · simp only [isBinLex, Bool.and_eq_true, decide_eq_true_eq] at h
    obtain ⟨⟨⟨⟨h0, hx⟩, -⟩, -⟩, -⟩ := h
    subst h0
    subst hx
    exact ⟨ds, rfl⟩

/-- C6: the integer detector's four lexical forms are mutually exclusive —
decimal (optional sign then 1 to 19 digits), hexadecimal (`0x` then 1 to
16 hex digits), octal (`0o` then 1 to 32 octal digits), binary (`0b` then
1 to 64 binary digits) — tried in that order with the captured digit run
decoded in the corresponding base; in particular `"10"` yields `Int(10)`,
`"0x1F"` yields `Int(31)`, `"0o17"` yields `Int(15)`, and `"0b101"`
yields `Int(5)`. -/
theorem C6_integer_forms :
    (∀ s : Str, (isDecLex s && isHexLex s) = false ∧ (isDecLex s && isOctLex s) = false ∧
      (isDecLex s && isBinLex s) = false ∧ (isHexLex s && isOctLex s) = false ∧
      (isHexLex s && isBinLex s) = false ∧ (isOctLex s && isBinLex s) = false) ∧
    (∀ ds : Str, isHexLex ('0' :: 'x' :: ds) = true →
      parse_int ('0' :: 'x' :: ds) = fromStrRadix ds 16) ∧
    Value.new ['1', '0'] = Value.Int 10 ['1', '0'] ∧
    Value.new ['0', 'x', '1', 'F'] = Value.Int 31 ['0', 'x', '1', 'F'] ∧
    Value.new ['0', 'o', '1', '7'] = Value.Int 15 ['0', 'o', '1', '7'] ∧
    Value.new ['0', 'b', '1', '0', '1'] = Value.Int 5 ['0', 'b', '1', '0', '1'] := by
  refine ⟨?_, ?_, rfl, rfl, rfl, rfl⟩
  · intro s
    refine ⟨?_, ?_, ?_, ?_, ?_, ?_⟩
    · by_cases hb : isHexLex s = true
      · obtain ⟨ds, rfl⟩ := isHexLex_shape hb
        rw [prefixShape_not_dec (by decide) ds, Bool.false_and]
      · rw [Bool.eq_false_iff.mpr hb, Bool.and_false]
    · by_cases hb : isOctLex s = true
      · obtain ⟨ds, rfl⟩ := isOctLex_shape hb
        rw [prefixShape_not_dec (by decide) ds, Bool.false_and]
      · rw [Bool.eq_false_iff.mpr hb, Bool.and_false]
    · by_cases hb : isBinLex s = true
      · obtain ⟨ds, rfl⟩ := isBinLex_shape hb
        rw [prefixShape_not_dec (by decide) ds, Bool.false_and]
      · rw [Bool.eq_false_iff.mpr hb, Bool.and_false]
    · by_cases hb : isOctLex s = true
      · obtain ⟨ds, rfl⟩ := isOctLex_shape hb
        rw [show isHexLex ('0' :: 'o' :: ds) = false from rfl, Bool.false_and]
      · rw [Bool.eq_false_iff.mpr hb, Bool.and_false]
    · by_cases hb : isBinLex s = true
      · obtain ⟨ds, rfl⟩ := isBinLex_shape hb
        rw [show isHexLex ('0' :: 'b' :: ds) = false from rfl, Bool.false_and]
      · rw [Bool.eq_false_iff.mpr hb, Bool.and_false]
    · by_cases hb : isBinLex s = true
      · obtain ⟨ds, rfl⟩ := isBinLex_shape hb
        rw [show isOctLex ('0' :: 'b' :: ds) = false from rfl, Bool.false_and]
      · rw [Bool.eq_false_iff.mpr hb, Bool.and_false]
  · intro ds h
    have hdec : parse_base_10 ('0' :: 'x' :: ds) = none := by
      unfold parse_base_10
      rw [prefixShape_not_dec (by decide) ds]
      rfl
    have h16 : parse_base_16 ('0' :: 'x' :: ds) = fromStrRadix ds 16 := by
      unfold parse_base_16
      rw [if_pos h]
      rfl
    unfold parse_int
    rw [hdec]
    show (parse_base_16 ('0' :: 'x' :: ds)).orElse _ = fromStrRadix ds 16
    rw [h16]
    cases hf : fromStrRadix ds 16 with
    | some v => rfl
    | none =>
      show ((parse_base_8 ('0' :: 'x' :: ds)).orElse fun _ =>
        parse_base_2 ('0' :: 'x' :: ds)) = none
      rfl

/-- C6 witness: the hexadecimal decode equation applied at `"0x1F"`. -/
theorem C6_integer_forms_witness :
    isHexLex ['0', 'x', '1', 'F'] = true ∧
    parse_int ['0', 'x', '1', 'F'] = fromStrRadix ['1', 'F'] 16 :=
  ⟨by decide, C6_integer_forms.2.1 ['1', 'F'] (by decide)⟩

/-- C7: the boolean detector recognizes exactly the eight spellings `t`,
`T`, `true`, `TRUE`, `f`, `F`, `false`, `FALSE` — the t-family mapping to
`true` and the f-family to `false` — and no other casing variant; in
particular `"True"` and `"tRuE"` do not parse as `Bool` and remain
`String`. -/
theorem C7_bool_lexicon :
    (∀ s : Str, parse_bool s =
      if s ∈ [['t'], ['T'], ['t', 'r', 'u', 'e'], ['T', 'R', 'U', 'E']] then some true
      else if s ∈ [['f'], ['F'], ['f', 'a', 'l', 's', 'e'], ['F', 'A', 'L', 'S', 'E']] then
        some false
      else none) ∧
    Value.new ['T', 'r', 'u', 'e'] = Value.String ['T', 'r', 'u', 'e'] ∧
    Value.new ['t', 'R', 'u', 'E'] = Value.String ['t', 'R', 'u', 'E'] := by
  refine ⟨?_, rfl, rfl⟩
  intro s
  unfold parse_bool
  simp only [List.mem_cons, List.not_mem_nil, or_false]
  split_ifs <;> tauto

/-- C8: looking up a key not present in the snapshot returns absence
rather than a default value, and each typed accessor returns the concrete
payload exactly when the variant matches and absence otherwise; `as_str`
is total, succeeding on every variant including `Array` by returning the
carried raw text. -/
theorem C8_lookup_accessors :
    (∀ (entries : List (Str × Str)) (k : Str),
      (entries.all fun kv => !decide (kv.1 = k)) = true →
      Envir.get (Envir.build entries) k = none) ∧
    (∀ v : Value, (v.as_str).isSome = true) ∧
    (∀ (elems : List Value) (raw : Str), (Value.Array elems raw).as_str = some raw) ∧
    (∀ (v : Value) (b : BoolT), v.as_bool = some b ↔ ∃ r, v = Value.Bool b r) ∧
    (∀ (v : Value) (i : IntT), v.as_int = some i ↔ ∃ r, v = Value.Int i r) ∧
    (∀ (v : Value) (f : Str), v.as_float = some f ↔ ∃ r, v = Value.Float f r) ∧
    (∀ (v : Value) (a : SockAddress), v.as_socket = some a ↔ ∃ r, v = Value.SocketAddr a r) ∧
    (∀ (v : Value) (a b c d : Nat), v.as_ipv4 = some (a, b, c, d) ↔
      ∃ r, v = Value.IpAddr (IpAddress.V4 a b c d) r) ∧
    (∀ (v : Value) (g : List Nat), v.as_ipv6 = some g ↔
      ∃ r, v = Value.IpAddr (IpAddress.V6 g) r) := by
  refine ⟨?_, ?_, fun elems raw => rfl, ?_, ?_, ?_, ?_, ?_, ?_⟩
  · intro entries k h
    unfold Envir.get Envir.build
    have hfind : ((entries.map fun kv => (kv.1, Value.new kv.2)).reverse.find? fun kv =>
        decide (kv.1 = k)) = none := by
      apply List.find?_eq_none.mpr
      intro x hx
      rw [List.mem_reverse] at hx
      rcases List.mem_map.mp hx with ⟨kv, hkv, rfl⟩
      have hne := List.all_eq_true.mp h kv hkv
      simp only [Bool.not_eq_eq_eq_not, Bool.not_true, decide_eq_false_iff_not] at hne
      simp [hne]
    rw [hfind]
    rfl
  · intro v
    cases v <;> rfl
  · intro v b
    cases v <;> simp [Value.as_bool]
  · intro v i
    cases v <;> simp [Value.as_int]
  · intro v f
    cases v <;> simp [Value.as_float]
  · intro v a
    cases v <;> simp [Value.as_socket]
  · intro v a b c d
    cases v with
    | IpAddr ip r => cases ip <;> simp [Value.as_ipv4]
    | _ => simp [Value.as_ipv4]
  · intro v g
    cases v with
    | IpAddr ip r => cases ip <;> simp [Value.as_ipv6]
    | _ => simp [Value.as_ipv6]

/-- C8 witness: a one-entry snapshot looked up at an absent key returns
absence. -/
theorem C8_lookup_accessors_witness :
    (([(['P'], ['1'])].all fun kv => !decide (kv.1 = ['H'])) = true) ∧
    Envir.get (Envir.build [(['P'], ['1'])]) ['H'] = none :=
  ⟨by decide, C8_lookup_accessors.1 [(['P'], ['1'])] ['H'] (by decide)⟩

/-- A non-empty digit run contains a digit. -/
theorem digitsRun1_any {l : Str} {hi : Nat} (h : digitsRun1 l hi = true) :
    l.any Char.isDigit = true := by
  unfold digitsRun1 at h
  rcases l with _ | ⟨c, r⟩
  · simp at h
  · simp only [Bool.and_eq_true, List.all_cons] at h
    obtain ⟨⟨⟨hc, -⟩, -⟩, -⟩ := h
    simp [List.any_cons, hc]

/-- A mantissa match of the float regex contains a digit. -/
theorem floatMant_any {m : Str} (h : floatMant m = true) :
    m.any Char.isDigit = true := by
  unfold floatMant at h
  rw [Bool.or_eq_true] at h
  rcases h with h1 | h2
  · exact digitsRun1_any h1
  · rcases List.any_eq_true.mp h2 with ⟨i, -, hcond⟩
    rw [Bool.and_eq_true] at hcond
    obtain ⟨-, hdrop⟩ := hcond
    rcases List.any_eq_true.mp (digitsRun1_any hdrop) with ⟨c, hc, hcd⟩
    exact List.any_eq_true.mpr ⟨c, List.mem_of_mem_drop hc, hcd⟩

/-- A numeral match of the float regex contains a digit. -/
theorem floatBody_any {t : Str} (h : floatBody t = true) :
    t.any Char.isDigit = true := by
  unfold floatBody at h
  rcases List.any_eq_true.mp h with ⟨j, -, hcond⟩
  rw [Bool.and_eq_true] at hcond
  obtain ⟨hmant, -⟩ := hcond
  rcases List.any_eq_true.mp (floatMant_any hmant) with ⟨c, hc, hcd⟩
  exact List.any_eq_true.mpr ⟨c, List.mem_of_mem_take hc, hcd⟩

/-- C10: the float detector's special tokens are exactly the spellings
`inf` and `Nan` with an optional leading sign — every other lexical match
contains a digit; the alternative spellings `nan`, `NaN`, `Inf` and
`Infinity` match no detector and (containing no delimiter) become
`String`. -/
theorem C10_special_tokens :
    (∀ s : Str, isFloatLex s = true →
      s ∈ [['i', 'n', 'f'], ['+', 'i', 'n', 'f'], ['-', 'i', 'n', 'f'],
        ['N', 'a', 'n'], ['+', 'N', 'a', 'n'], ['-', 'N', 'a', 'n']] ∨
      s.any Char.isDigit = true) ∧
    parse_float ['i', 'n', 'f'] = some ['i', 'n', 'f'] ∧
    parse_float ['N', 'a', 'n'] = some ['N', 'a', 'n'] ∧
    parse_float ['+', 'i', 'n', 'f'] = some ['+', 'i', 'n', 'f'] ∧
    parse_float ['-', 'N', 'a', 'n'] = some ['-', 'N', 'a', 'n'] ∧
    Value.new ['n', 'a', 'n'] = Value.String ['n', 'a', 'n'] ∧
    Value.new ['N', 'a', 'N'] = Value.String ['N', 'a', 'N'] ∧
    Value.new ['I', 'n', 'f'] = Value.String ['I', 'n', 'f'] ∧
    Value.new ['I', 'n', 'f', 'i', 'n', 'i', 't', 'y'] =
      Value.String ['I', 'n', 'f', 'i', 'n', 'i', 't', 'y'] := by
  refine ⟨?_, rfl, rfl, rfl, rfl, rfl, rfl, rfl, rfl⟩
  intro s h
  rcases s with _ | ⟨c, rest⟩
  · exact Bool.noConfusion h
  · replace h : (if c = '+' ∨ c = '-' then floatCore rest else floatCore (c :: rest)) = true := h
    by_cases hsign : c = '+' ∨ c = '-'
    · rw [if_pos hsign] at h
      unfold floatCore at h
      rw [Bool.or_eq_true, Bool.or_eq_true] at h
      rcases h with (hinf | hnan) | hbody
      · have : rest = ['i', 'n', 'f'] := of_decide_eq_true hinf
        subst this
        rcases hsign with hs | hs <;> subst hs <;> simp
      · have : rest = ['N', 'a', 'n'] := of_decide_eq_true hnan
        subst this
        rcases hsign with hs | hs <;> subst hs <;> simp
      · right
        have hr := floatBody_any hbody
        rcases List.any_eq_true.mp hr with ⟨d, hd, hdd⟩
        exact List.any_eq_true.mpr ⟨d, List.mem_cons_of_mem c hd, hdd⟩
    · rw [if_neg hsign] at h
      unfold floatCore at h
      rw [Bool.or_eq_true, Bool.or_eq_true] at h
      rcases h with (hinf | hnan) | hbody
      · have : c :: rest = ['i', 'n', 'f'] := of_decide_eq_true hinf
        rw [this]
        simp
      · have : c :: rest = ['N', 'a', 'n'] := of_decide_eq_true hnan
        rw [this]
        simp
      · exact Or.inr (floatBody_any hbody)

/-- C10 witness: the general lexical lemma applied at the digit string
`"1"`. -/
theorem C10_special_tokens_witness :
    isFloatLex ['1'] = true ∧
    ((['1'] : Str) ∈ [['i', 'n', 'f'], ['+', 'i', 'n', 'f'], ['-', 'i', 'n', 'f'],
        ['N', 'a', 'n'], ['+', 'N', 'a', 'n'], ['-', 'N', 'a', 'n']] ∨
      (['1'] : Str).any Char.isDigit = true) :=
  ⟨by decide, C10_special_tokens.1 ['1'] (by decide)⟩
